import Mathlib

/-!
Verification of the fake-news detection pipeline implemented in `src/jqxx/jqxx.py`
(functions `preprocess_text`, `extract_text_features`, `generate_features`,
`absurd_content_detector`, `calculate_confidence`, and the classification part of
`main_application`).

Modelling conventions:
* a Python `str` is modelled as the list of its Unicode code points (`List Char`);
* Python floats are modelled as exact rationals (`ℚ`);
* the external pre-trained vectorizer and classifier are black-box collaborators and are
  modelled as function fields of a `Models` structure; a call that may raise is modelled
  as an `Option`-returning function (`none` = the call raises);
* the substring test `sub in text` of Python is modelled by `pyContains`.
-/

namespace Jqxx

/-- Text is the list of Unicode code points of a Python `str`. -/
abbrev Text := List Char

/-- Model of the substring containment test `sub in text` of Python. -/
def pyContains (sub text : Text) : Bool :=
  decide (sub <:+: text)

/-- Characters kept by the regex `[^一-龥a-zA-Z0-9]` substitution in
`preprocess_text` (line 42): CJK ideographs U+4E00–U+9FA5, ASCII letters, ASCII digits.
All other characters are replaced by a space. -/
def keepChar (c : Char) : Bool :=
  (0x4e00 ≤ c.toNat && c.toNat ≤ 0x9fa5) || (97 ≤ c.toNat && c.toNat ≤ 122) ||
    (65 ≤ c.toNat && c.toNat ≤ 90) || (48 ≤ c.toNat && c.toNat ≤ 57)

/-- Per-character effect of the two substitutions and `.lower()` in `preprocess_text`
(lines 42–43): characters outside the kept class become a space, kept ASCII upper-case
letters are lower-cased, all other kept characters are unchanged.  (The `.lower()` call
only affects the ASCII upper-case letters among the kept characters, since CJK
ideographs and digits have no case.) -/
def normChar (c : Char) : Char :=
  if keepChar c then c.toLower else ' '

/-- Word segmentation stage of `preprocess_text` (line 44).  Modelled from the spec:
the source delegates segmentation to `jieba.cut` from the external `jieba` library,
whose code is not part of this repository; spec §4.1 says the normalizer segments the
cleaned text into word-like tokens and joins them with single spaces.  The segmenter is
modelled as splitting the cleaned text into its maximal space-free runs (the word-like
tokens), i.e. splitting on the space character and dropping empty pieces. -/
def jieba_cut (text : Text) : List Text :=
  (text.splitOn ' ').filter (fun token => token ≠ [])

/-- Model of `preprocess_text` (lines 39–44): replace every character that is not a CJK
ideograph or ASCII alphanumeric by a space, collapse whitespace runs, lower-case, strip,
segment with the tokenizer and join with single spaces.  Because the first substitution
turns every whitespace character into `' '`, the collapse and strip steps are exactly
the removal of the empty pieces performed inside `jieba_cut`, so the pipeline is the
composition below.  The `if not text: return ""` guard agrees with the general case on
empty input. -/
def preprocess_text (text : Text) : Text :=
  List.intercalate [' '] (jieba_cut (text.map normChar))

/-- Result of `extract_text_features` (lines 47–64): a fixed mapping of named numeric
signals.  `length` and `sentences` are Python ints; all values are later cast to float,
so every field is modelled as a rational. -/
structure HeuristicFeatures where
  length : ℚ
  sentences : ℚ
  reliable : ℚ
  is_absurd : ℚ
  urgent : ℚ
  exaggeration : ℚ
deriving DecidableEq

/-- Model of `extract_text_features` (lines 47–64), operating on the raw text. -/
def extract_text_features (text : Text) : HeuristicFeatures where
  length := text.length
  sentences := text.count '。' + 1
  reliable :=
    if pyContains ("新华社".toList) text || pyContains ("人民日报".toList) text ||
        pyContains ("官方".toList) text then 1 else 0
  is_absurd :=
    if (["月球爆炸".toList, "太阳消失".toList, "地球停转".toList, "长生不老".toList].any
        fun phrase => pyContains phrase text) then 1 else 0
  urgent :=
    if pyContains ("必看".toList) text || pyContains ("紧急".toList) text ||
        pyContains ("速看".toList) text then 1 else 0
  exaggeration :=
    if pyContains ("震惊".toList) text || pyContains ("最牛".toList) text ||
        pyContains ("100%".toList) text then 1 else 0

/-- Heuristic values in the order used by `generate_features` (line 78):
`[float(adv_features[key]) for key in sorted(adv_features)]`, i.e. the six values
ordered by the lexicographic order of their keys: `exaggeration`, `is_absurd`,
`length`, `reliable`, `sentences`, `urgent`. -/
def adv_vector (text : Text) : List ℚ :=
  [(extract_text_features text).exaggeration, (extract_text_features text).is_absurd,
    (extract_text_features text).length, (extract_text_features text).reliable,
    (extract_text_features text).sentences, (extract_text_features text).urgent]

/-- The model bundle built by `load_models` (lines 23–36): the external TF-IDF
vectorizer, the external classifier (its `predict` and `predict_proba` methods) and the
expected feature dimension.  The external calls are black boxes; `none` models a raised
exception. -/
structure Models where
  tfidf : Text → Option (List ℚ)
  predict : List ℚ → Option ℕ
  predict_proba : List ℚ → Option (ℚ × ℚ)
  expected_dim : ℕ

/-- Model of `generate_features` (lines 67–88): vectorize the preprocessed text,
append the six heuristic values, truncate to `expected_dim`
(`features[:models["expected_dim"]]`); if the vectorizer raises, the `except` branch
returns `expected_dim` zeros. -/
def generate_features (text : Text) (models : Models) : List ℚ :=
  match models.tfidf (preprocess_text text) with
  | some tfidf_vector => (tfidf_vector ++ adv_vector text).take models.expected_dim
  | none => List.replicate models.expected_dim 0

/-- The fixed ordered phrase list of `absurd_content_detector` (line 93). -/
def absurd_phrases : List Text :=
  ["月球爆炸".toList, "太阳消失".toList, "地球停转".toList, "长生不老".toList,
    "穿越古代".toList]

/-- Model of `absurd_content_detector` (lines 91–97): scan the phrase list in order and
report the first phrase contained in the text together with the reason string
`f"检测到荒谬内容: {phrase}"`; report `(false, "")` if none is contained. -/
def absurd_content_detector (text : Text) : Bool × Text :=
  match absurd_phrases.find? (fun phrase => pyContains phrase text) with
  | some phrase => (true, ("检测到荒谬内容: ".toList) ++ phrase)
  | none => (false, [])

/-- Model of `calculate_confidence` (lines 100–108): if the raw text contains
`新华社` or `人民日报`, replace `real_prob` by `min(real_prob * 1.7, 0.97)`;
`fake_prob` is returned unchanged.  No renormalization happens here. -/
def calculate_confidence (probabilities : ℚ × ℚ) (text : Text) : ℚ × ℚ :=
  if pyContains ("新华社".toList) text || pyContains ("人民日报".toList) text then
    (min (probabilities.1 * (17 / 10)) (97 / 100), probabilities.2)
  else
    (probabilities.1, probabilities.2)

/-- Renormalization performed by the orchestrator right after `calculate_confidence`
(`main_application`, lines 169–171): divide both probabilities by their sum. -/
def renormalize (pair : ℚ × ℚ) : ℚ × ℚ :=
  (pair.1 / (pair.1 + pair.2), pair.2 / (pair.1 + pair.2))

/-- Terminal outcome of one classification run of `main_application` (lines 143–213).
`fake` carries the displayed confidence and the reason string of the gate (empty when the
verdict comes from the classifier); `emptyInput` is the `st.warning` branch for blank
input (line 144–146); `inferenceError` is the `except` branch (lines 209–213). -/
inductive Verdict where
  | fake (confidence : ℚ) (reason : Text)
  | real (confidence : ℚ)
  | emptyInput
  | inferenceError
deriving DecidableEq

/-- Model of `not news_text.strip()`: the text is empty or whitespace only. -/
def isBlank (text : Text) : Bool :=
  text.all Char.isWhitespace

/-- Model of one classification run of `main_application` (lines 143–213): blank check,
absurdity gate (short-circuits to a Fake verdict with confidence 1.0), feature
generation, classifier prediction and class probabilities, confidence calibration,
renormalization, and the final verdict from the predicted label; a raising classifier
call lands in the `except` branch. -/
def classify (text : Text) (models : Models) : Verdict :=
  if isBlank text then Verdict.emptyInput
  else if (absurd_content_detector text).1 then
    Verdict.fake 1 (absurd_content_detector text).2
  else
    match models.predict (generate_features text models),
        models.predict_proba (generate_features text models) with
    | some prediction, some probabilities =>
        if prediction = 1 then
          Verdict.fake (renormalize (calculate_confidence probabilities text)).2 []
        else
          Verdict.real (renormalize (calculate_confidence probabilities text)).1
    | _, _ => Verdict.inferenceError

/-- A run that produced an actual verdict (fake or real), as opposed to an error. -/
def isVerdict : Verdict → Bool
  | Verdict.fake _ _ => true
  | Verdict.real _ => true
  | Verdict.emptyInput => false
  | Verdict.inferenceError => false

/-! Basic sanity examples, evaluating the model on concrete inputs. -/

example : preprocess_text ("Hello, 新华社!".toList) = "hello 新华社".toList := by decide
example : (extract_text_features ("太阳消失了。".toList)).is_absurd = 1 := by decide
example : (absurd_content_detector ("科学家称太阳消失".toList)).2 =
    "检测到荒谬内容: 太阳消失".toList := by decide
example : calculate_confidence (1/2, 1/2) ("新华社".toList) =
    (min ((1:ℚ)/2 * (17/10)) (97/100), 1/2) := rfl

/-! Helper lemmas shared by the claim theorems. -/

/-- Unfolding lemma: the second component of `calculate_confidence` is the input
`fake_prob`, in both branches. -/
theorem calc_conf_snd (probabilities : ℚ × ℚ) (text : Text) :
    (calculate_confidence probabilities text).2 = probabilities.2 := by
  unfold calculate_confidence
  split <;> rfl

/-- The first component of `calculate_confidence` is nonnegative when the input
`real_prob` is. -/
theorem calc_conf_fst_nonneg (probabilities : ℚ × ℚ) (text : Text)
    (h1 : 0 ≤ probabilities.1) : 0 ≤ (calculate_confidence probabilities text).1 := by
  unfold calculate_confidence
  split
  · exact le_min (by nlinarith) (by norm_num)
  · exact h1

/-- The components of `calculate_confidence` have positive sum whenever the input pair
is nonnegative with positive sum. -/
theorem calc_conf_sum_pos (probabilities : ℚ × ℚ) (text : Text)
    (h1 : 0 ≤ probabilities.1) (h2 : 0 ≤ probabilities.2)
    (hs : 0 < probabilities.1 + probabilities.2) :
    0 < (calculate_confidence probabilities text).1 +
      (calculate_confidence probabilities text).2 := by
  unfold calculate_confidence
  split
  · simp only
    rcases lt_or_eq_of_le h1 with hp | hp
    · have hmin : 0 < min (probabilities.1 * (17/10)) (97/100) :=
        lt_min (by nlinarith) (by norm_num)
      linarith
    · have hf : 0 < probabilities.2 := by rw [← hp] at hs; linarith
      have hmin : 0 ≤ min (probabilities.1 * (17/10)) (97/100) :=
        le_min (by nlinarith) (by norm_num)
      linarith
  · simpa using hs

/-! Claim theorems. -/

/-- C10: for every input pair and every text, `calculate_confidence` returns the
`fake_prob` component unchanged; only `real_prob` may differ. -/
theorem c10_fake_prob_unchanged (probabilities : ℚ × ℚ) (text : Text) :
    (calculate_confidence probabilities text).2 = probabilities.2 :=
  calc_conf_snd probabilities text

/-- C8: for every input string the heuristic extractor returns flags that are exactly
0 or 1, a `length` equal to the character count of the input, and a `sentences` count
equal to the number of `。` characters plus one, hence at least 1. -/
theorem c8_heuristic_invariants (text : Text) :
    ((extract_text_features text).reliable = 0 ∨ (extract_text_features text).reliable = 1) ∧
    ((extract_text_features text).is_absurd = 0 ∨
      (extract_text_features text).is_absurd = 1) ∧
    ((extract_text_features text).urgent = 0 ∨ (extract_text_features text).urgent = 1) ∧
    ((extract_text_features text).exaggeration = 0 ∨
      (extract_text_features text).exaggeration = 1) ∧
    (extract_text_features text).length = text.length ∧
    (extract_text_features text).sentences = text.count '。' + 1 ∧
    1 ≤ (extract_text_features text).sentences := by
  refine ⟨?_, ?_, ?_, ?_, rfl, rfl, ?_⟩
  · simp only [extract_text_features]
    split <;> simp
  · simp only [extract_text_features]
    split <;> simp
  · simp only [extract_text_features]
    split <;> simp
  · simp only [extract_text_features]
    split <;> simp
  · simp only [extract_text_features]
    have h : (0:ℚ) ≤ (text.count '。' : ℚ) := by positivity
    linarith

/-- C2 (amended): the assembler truncates to `expected_dim` but never pads, so its
output length is the minimum of the concatenated length and `expected_dim` when the
vectorizer succeeds (hence exactly `expected_dim` only when the concatenation is at
least that long), and exactly `expected_dim` zeros when the vectorizer raises. -/
theorem c2_generate_features_length (text : Text) (models : Models) :
    (generate_features text models).length =
      match models.tfidf (preprocess_text text) with
      | some v => min (v.length + 6) models.expected_dim
      | none => models.expected_dim := by
  unfold generate_features
  cases h : models.tfidf (preprocess_text text) with
  | none => simp
  | some v =>
      rw [List.length_take, List.length_append]
      rw [show (adv_vector text).length = 6 from rfl]
      exact min_comm _ _

/-- C2 counterexample: with a vectorizer whose output (plus the six heuristic values)
is shorter than `expected_dim`, the assembled vector has fewer than `expected_dim`
entries — the claimed "length exactly `expectedDim` for shorter inputs" fails. -/
theorem c2_short_vector_counterexample :
    (generate_features [] ⟨fun _ => some [], fun _ => none, fun _ => none, 10⟩).length ≠
      10 := by
  decide

/-- C3 counterexample: `calculate_confidence` itself does not renormalize; on input
pair (0.5, 0.5) and a text containing `新华社` it returns a pair summing to 1.35. -/
theorem c3_no_renormalization_counterexample :
    (calculate_confidence (1/2, 1/2) ("新华社".toList)).1 +
      (calculate_confidence (1/2, 1/2) ("新华社".toList)).2 ≠ 1 := by
  have h : (calculate_confidence (1/2, 1/2) ("新华社".toList)) =
      (min ((1:ℚ)/2 * (17/10)) (97/100), 1/2) := rfl
  rw [h, min_def]
  norm_num

/-- C3 (amended): the renormalization is done by the orchestrator, not by
`calculate_confidence`; dividing the calibrated pair by its sum yields a pair that sums
to 1 with both components in [0, 1], whenever the input pair is nonnegative with
positive sum. -/
theorem c3_renormalized_pair_valid (probabilities : ℚ × ℚ) (text : Text)
    (h1 : 0 ≤ probabilities.1) (h2 : 0 ≤ probabilities.2)
    (hs : 0 < probabilities.1 + probabilities.2) :
    (renormalize (calculate_confidence probabilities text)).1 +
        (renormalize (calculate_confidence probabilities text)).2 = 1 ∧
      0 ≤ (renormalize (calculate_confidence probabilities text)).1 ∧
      (renormalize (calculate_confidence probabilities text)).1 ≤ 1 ∧
      0 ≤ (renormalize (calculate_confidence probabilities text)).2 ∧
      (renormalize (calculate_confidence probabilities text)).2 ≤ 1 := by
  have hr : 0 ≤ (calculate_confidence probabilities text).1 :=
    calc_conf_fst_nonneg probabilities text h1
  have hf : 0 ≤ (calculate_confidence probabilities text).2 := by
    rw [calc_conf_snd]; exact h2
  have hsum : 0 < (calculate_confidence probabilities text).1 +
      (calculate_confidence probabilities text).2 :=
    calc_conf_sum_pos probabilities text h1 h2 hs
  unfold renormalize
  refine ⟨?_, ?_, ?_, ?_, ?_⟩
  · rw [div_add_div_same, div_self (ne_of_gt hsum)]
  · exact div_nonneg hr (le_of_lt hsum)
  · rw [div_le_one hsum]; linarith
  · exact div_nonneg hf (le_of_lt hsum)
  · rw [div_le_one hsum]; linarith

/-- C3 witness: the amended statement at the concrete pair (0.3, 0.4) and a text with
no authority marker. -/
theorem c3_renormalized_pair_valid_witness :
    (renormalize (calculate_confidence (3/10, 2/5) ("abc".toList))).1 +
        (renormalize (calculate_confidence (3/10, 2/5) ("abc".toList))).2 = 1 ∧
      0 ≤ (renormalize (calculate_confidence (3/10, 2/5) ("abc".toList))).1 ∧
      (renormalize (calculate_confidence (3/10, 2/5) ("abc".toList))).1 ≤ 1 ∧
      0 ≤ (renormalize (calculate_confidence (3/10, 2/5) ("abc".toList))).2 ∧
      (renormalize (calculate_confidence (3/10, 2/5) ("abc".toList))).2 ≤ 1 :=
  c3_renormalized_pair_valid (3/10, 2/5) ("abc".toList) (by norm_num) (by norm_num)
    (by norm_num)

/-- C4 counterexample: on the pair (0.99, 0.01) and a text containing the authority
marker `新华社`, the calibrated `real_prob` is 0.97, below 0.99 — the boost can strictly
decrease `real_prob` when it starts above the ceiling. -/
theorem c4_boost_can_decrease_counterexample :
    (extract_text_features ("新华社".toList)).reliable = 1 ∧
      (calculate_confidence (99/100, 1/100) ("新华社".toList)).1 < 99/100 := by
  constructor
  · rfl
  · have h : (calculate_confidence (99/100, 1/100) ("新华社".toList)).1 =
        min ((99:ℚ)/100 * (17/10)) (97/100) := rfl
    rw [h, min_def]
    norm_num

/-- C4 (amended): for every pair whose `real_prob` lies in [0, 0.97] and every text
containing an authority marker, the calibrated `real_prob` is at least the uncalibrated
one and at most the ceiling 0.97. -/
theorem c4_boost_monotone_and_capped (probabilities : ℚ × ℚ) (text : Text)
    (_hrel : (extract_text_features text).reliable = 1)
    (h0 : 0 ≤ probabilities.1) (h97 : probabilities.1 ≤ 97/100) :
    probabilities.1 ≤ (calculate_confidence probabilities text).1 ∧
      (calculate_confidence probabilities text).1 ≤ 97/100 := by
  unfold calculate_confidence
  split
  · exact ⟨le_min (by nlinarith) h97, min_le_right _ _⟩
  · exact ⟨le_refl _, h97⟩

/-- C4 witness: the amended statement at the pair (0.5, 0.5) and the text `新华社`. -/
theorem c4_boost_monotone_and_capped_witness :
    (1:ℚ)/2 ≤ (calculate_confidence (1/2, 1/2) ("新华社".toList)).1 ∧
      (calculate_confidence (1/2, 1/2) ("新华社".toList)).1 ≤ 97/100 :=
  c4_boost_monotone_and_capped (1/2, 1/2) ("新华社".toList) rfl (by norm_num)
    (by norm_num)

/-- C5 counterexample: the text `官方` sets the `reliable` signal of the extractor to 1.0,
yet `calculate_confidence` applies no boost to it (the output equals the input, while a
boost would have produced `min(0.5 * 1.7, 0.97) ≠ 0.5`) — the boost condition covers
strictly fewer texts than the `reliable` condition. -/
theorem c5_reliable_without_boost_counterexample :
    (extract_text_features ("官方".toList)).reliable = 1 ∧
      calculate_confidence (1/2, 1/2) ("官方".toList) = (1/2, 1/2) ∧
      min ((1:ℚ)/2 * (17/10)) (97/100) ≠ 1/2 := by
  refine ⟨rfl, rfl, ?_⟩
  rw [min_def]
  norm_num

/-- C5 (amended): the ×1.7 boost is applied exactly when the raw text contains
`新华社` or `人民日报`; that condition implies the `reliable` signal of the extractor is 1.0
(but not conversely, since `reliable` also accepts `官方`). -/
theorem c5_boost_condition (probabilities : ℚ × ℚ) (text : Text) :
    ((pyContains ("新华社".toList) text || pyContains ("人民日报".toList) text) = true →
        (calculate_confidence probabilities text).1 =
            min (probabilities.1 * (17/10)) (97/100) ∧
          (extract_text_features text).reliable = 1) ∧
    ((pyContains ("新华社".toList) text || pyContains ("人民日报".toList) text) = false →
        calculate_confidence probabilities text = probabilities) := by
  constructor
  · intro h
    constructor
    · rw [calculate_confidence, if_pos h]
    · cases hA : pyContains ("新华社".toList) text <;>
        cases hB : pyContains ("人民日报".toList) text
      · rw [hA, hB] at h
        exact absurd h (by simp)
      all_goals simp_all [extract_text_features]
  · intro h
    rw [calculate_confidence, if_neg (by rw [h]; simp)]

/-- C5 witness: the boost branch of the amended statement at the pair (0.5, 1/3) and the
text `人民日报`. -/
theorem c5_boost_condition_witness :
    (calculate_confidence (1/2, 1/3) ("人民日报".toList)).1 =
        min ((1:ℚ)/2 * (17/10)) (97/100) ∧
      (extract_text_features ("人民日报".toList)).reliable = 1 :=
  (c5_boost_condition (1/2, 1/3) ("人民日报".toList)).1 (by decide)

/-- Every phrase in the list of the absurdity gate has a non-whitespace character. -/
theorem absurd_phrases_have_nonspace :
    ∀ phrase ∈ absurd_phrases, phrase.any (fun c => !c.isWhitespace) = true := by
  decide

/-- A text containing one of the phrases of the gate is not blank, so the blank-input guard
of the orchestrator does not fire on it. -/
theorem not_blank_of_phrase (text phrase : Text) (hmem : phrase ∈ absurd_phrases)
    (hin : pyContains phrase text = true) : isBlank text = false := by
  have hinf : phrase <:+: text := by rwa [pyContains, decide_eq_true_iff] at hin
  obtain ⟨c, hc, hcw⟩ := List.any_eq_true.mp (absurd_phrases_have_nonspace phrase hmem)
  cases hb : isBlank text with
  | false => rfl
  | true =>
      exfalso
      rw [isBlank, List.all_eq_true] at hb
      have := hb c (hinf.subset hc)
      rw [this] at hcw
      exact absurd hcw (by simp)

/-- C1: whenever the raw text contains an absurd phrase (`phrase` being the first match
in the fixed list order, as expressed by `find?`), `classify` returns a Fake verdict
with confidence exactly 1 and the reason string naming that phrase — for every model
bundle, so the normalizer, vectorizer, classifier and calibrator are never consulted. -/
theorem c1_absurd_short_circuit (models : Models) (text phrase : Text)
    (hfind : absurd_phrases.find? (fun q => pyContains q text) = some phrase) :
    classify text models = Verdict.fake 1 (("检测到荒谬内容: ".toList) ++ phrase) := by
  have hmem : phrase ∈ absurd_phrases := List.mem_of_find?_eq_some hfind
  have hin0 := List.find?_some hfind
  have hin : pyContains phrase text = true := hin0
  have hbl : isBlank text = false := not_blank_of_phrase text phrase hmem hin
  have hdet : absurd_content_detector text =
      (true, ("检测到荒谬内容: ".toList) ++ phrase) := by
    unfold absurd_content_detector
    rw [hfind]
  unfold classify
  rw [hbl, hdet]
  simp

/-- C1 witness: a text containing `太阳消失` short-circuits to a Fake verdict naming
that phrase, even with a model bundle whose vectorizer and classifier always raise. -/
theorem c1_absurd_short_circuit_witness :
    classify ("科学家称太阳消失".toList)
        ⟨fun _ => none, fun _ => none, fun _ => none, 204⟩ =
      Verdict.fake 1 (("检测到荒谬内容: ".toList) ++ ("太阳消失".toList)) :=
  c1_absurd_short_circuit ⟨fun _ => none, fun _ => none, fun _ => none, 204⟩
    ("科学家称太阳消失".toList) ("太阳消失".toList) (by decide)

/-- C7: if the vectorizer raises on the preprocessed text, the assembler returns
exactly `expected_dim` zeros instead of propagating the failure, and a classification
run whose classifier succeeds on that zero vector still produces a verdict (fake or
real), not an `InferenceError`. -/
theorem c7_vectorizer_failure_degrades (models : Models) (text : Text) (lab : ℕ)
    (pr : ℚ × ℚ)
    (hv : models.tfidf (preprocess_text text) = none)
    (hb : isBlank text = false)
    (hp : models.predict (List.replicate models.expected_dim 0) = some lab)
    (hq : models.predict_proba (List.replicate models.expected_dim 0) = some pr) :
    generate_features text models = List.replicate models.expected_dim 0 ∧
      isVerdict (classify text models) = true := by
  have hgen : generate_features text models = List.replicate models.expected_dim 0 := by
    unfold generate_features
    rw [hv]
  refine ⟨hgen, ?_⟩
  unfold classify
  rw [hb]
  by_cases hdet : (absurd_content_detector text).1 = true
  · simp [hdet, isVerdict]
  · rw [Bool.not_eq_true] at hdet
    rw [hdet, hgen, hp, hq]
    by_cases hlab : lab = 1 <;> simp [hlab, isVerdict]

/-- C7 witness: a model bundle whose vectorizer always raises still yields a zero
feature vector of the expected dimension and a completed verdict on a plain text. -/
theorem c7_vectorizer_failure_degrades_witness :
    generate_features ("abc".toList)
        ⟨fun _ => none, fun _ => some 0, fun _ => some (1/2, 1/2), 4⟩ =
        List.replicate 4 0 ∧
      isVerdict (classify ("abc".toList)
        ⟨fun _ => none, fun _ => some 0, fun _ => some (1/2, 1/2), 4⟩) = true :=
  c7_vectorizer_failure_degrades ⟨fun _ => none, fun _ => some 0,
    fun _ => some (1/2, 1/2), 4⟩ ("abc".toList) 0 (1/2, 1/2) rfl (by decide) rfl rfl

/-- C9: the phrase list of the absurdity gate strictly contains that of the heuristic
`is_absurd` phrase list: every text with `is_absurd = 1` triggers the gate, while the
text `穿越古代` triggers the gate although its `is_absurd` signal is 0. -/
theorem c9_gate_strictly_contains_extractor (text : Text) :
    ((extract_text_features text).is_absurd = 1 →
        (absurd_content_detector text).1 = true) ∧
      (absurd_content_detector ("穿越古代".toList)).1 = true ∧
      (extract_text_features ("穿越古代".toList)).is_absurd = 0 := by
  refine ⟨?_, by decide, rfl⟩
  intro h1
  have hcond : (["月球爆炸".toList, "太阳消失".toList, "地球停转".toList,
      "长生不老".toList].any fun phrase => pyContains phrase text) = true := by
    by_contra hc
    rw [Bool.not_eq_true] at hc
    simp only [extract_text_features] at h1
    rw [hc] at h1
    norm_num at h1
  obtain ⟨phrase, hmem, hin⟩ := List.any_eq_true.mp hcond
  have hmem5 : phrase ∈ absurd_phrases := by
    fin_cases hmem <;> decide
  have hsome : (absurd_phrases.find? fun q => pyContains q text).isSome = true :=
    List.find?_isSome.mpr ⟨phrase, hmem5, hin⟩
  unfold absurd_content_detector
  cases hf : absurd_phrases.find? fun q => pyContains q text with
  | none => rw [hf] at hsome; simp at hsome
  | some q => rfl

/-- C9 witness: the extractor phrase `月球爆炸` also triggers the gate. -/
theorem c9_gate_strictly_contains_extractor_witness :
    (absurd_content_detector ("月球爆炸".toList)).1 = true :=
  (c9_gate_strictly_contains_extractor ("月球爆炸".toList)).1 rfl

/-! Lemmas for the idempotence of the normalizer. -/

/-- Characters of any piece produced by `splitOnP` falsify the splitting predicate. -/
theorem splitOnP_piece_pred_false {α : Type} (p : α → Bool) :
    ∀ (xs t : List α), t ∈ xs.splitOnP p → ∀ c ∈ t, p c = false := by
  intro xs
  induction xs with
  | nil =>
      intro t ht c hc
      rw [List.splitOnP_nil] at ht
      rw [List.mem_singleton] at ht
      subst ht
      simp at hc
  | cons a as ih =>
      intro t ht c hc
      rw [List.splitOnP_cons] at ht
      by_cases hpa : p a = true
      · rw [if_pos hpa] at ht
        rcases List.mem_cons.mp ht with rfl | h
        · simp at hc
        · exact ih t h c hc
      · rw [if_neg hpa] at ht
        cases hsp : as.splitOnP p with
        | nil => exact absurd hsp (List.splitOnP_ne_nil p as)
        | cons h0 rest =>
            rw [hsp, List.modifyHead_cons] at ht
            rcases List.mem_cons.mp ht with rfl | h
            · rcases List.mem_cons.mp hc with rfl | h
              · rw [← Bool.not_eq_true]
                exact hpa
              · exact ih h0 (by rw [hsp]; exact List.mem_cons_self h0 rest) c h
            · exact ih t (by rw [hsp]; exact List.mem_cons_of_mem h0 h) c hc

/-- Every element of a list is also an element of the list interspersed with a
separator. -/
theorem mem_intersperse_of_mem {β : Type} (sep : β) :
    ∀ (ls : List β), ∀ t ∈ ls, t ∈ List.intersperse sep ls := by
  intro ls
  induction ls with
  | nil => intro t ht; simp at ht
  | cons a as ih =>
      intro t ht
      cases as with
      | nil => simpa using ht
      | cons b bs =>
          rw [List.intersperse_cons₂]
          rcases List.mem_cons.mp ht with rfl | h
          · exact List.mem_cons_self _ _
          · exact List.mem_cons_of_mem _ (List.mem_cons_of_mem _ (ih t h))

/-- Characters of any piece of `splitOn` occur in the original list. -/
theorem mem_of_mem_splitOn {α : Type} [DecidableEq α] (s : α) (xs t : List α) (c : α)
    (ht : t ∈ xs.splitOn s) (hc : c ∈ t) : c ∈ xs := by
  have hrec : [s].intercalate (xs.splitOn s) = xs := List.intercalate_splitOn xs s
  rw [← hrec, List.intercalate]
  exact List.mem_flatten.mpr ⟨t, mem_intersperse_of_mem [s] (xs.splitOn s) t ht, hc⟩

/-- Every character of an intercalation with a one-character separator is either that
separator or a character of one of the pieces. -/
theorem mem_intercalate_cases {β : Type} (sep : β) :
    ∀ (ls : List (List β)) (c : β), c ∈ List.intercalate [sep] ls →
      c = sep ∨ ∃ t ∈ ls, c ∈ t := by
  intro ls
  induction ls with
  | nil =>
      intro c hc
      rw [List.intercalate] at hc
      simp at hc
  | cons a as ih =>
      intro c hc
      cases as with
      | nil =>
          rw [List.intercalate] at hc
          simp only [List.intersperse_single, List.flatten_cons, List.flatten_nil,
            List.append_nil] at hc
          exact Or.inr ⟨a, List.mem_cons_self a [], hc⟩
      | cons b bs =>
          have hstep : List.intercalate [sep] (a :: b :: bs) =
              a ++ [sep] ++ List.intercalate [sep] (b :: bs) := by
            rw [List.intercalate, List.intercalate, List.intersperse_cons₂,
              List.flatten_cons, List.flatten_cons, List.append_assoc]
          rw [hstep] at hc
          rcases List.mem_append.mp hc with h | h
          · rcases List.mem_append.mp h with h | h
            · exact Or.inr ⟨a, List.mem_cons_self a (b :: bs), h⟩
            · rw [List.mem_singleton] at h
              exact Or.inl h
          · rcases ih c h with h | ⟨t, ht, hcc⟩
            · exact Or.inl h
            · exact Or.inr ⟨t, List.mem_cons_of_mem a ht, hcc⟩

/-- The pieces produced by the modelled tokenizer are nonempty. -/
theorem jieba_cut_pieces_ne_nil (l : Text) : ∀ t ∈ jieba_cut l, t ≠ [] := by
  intro t ht
  rw [jieba_cut] at ht
  exact of_decide_eq_true (List.mem_filter.mp ht).2

/-- The pieces produced by the modelled tokenizer contain no space. -/
theorem jieba_cut_pieces_no_space (l : Text) : ∀ t ∈ jieba_cut l, ∀ c ∈ t, c ≠ ' ' := by
  intro t ht c hc
  rw [jieba_cut] at ht
  have ht2 : t ∈ l.splitOn ' ' := (List.mem_filter.mp ht).1
  rw [List.splitOn] at ht2
  have hbeq := splitOnP_piece_pred_false (fun x => x == ' ') l t ht2 c hc
  exact fun hceq => by rw [hceq] at hbeq; simp at hbeq

/-- Characters of the pieces of the modelled tokenizer occur in the tokenized list. -/
theorem jieba_cut_pieces_subset (l : Text) : ∀ t ∈ jieba_cut l, ∀ c ∈ t, c ∈ l := by
  intro t ht c hc
  rw [jieba_cut] at ht
  exact mem_of_mem_splitOn ' ' l t c (List.mem_filter.mp ht).1 hc

/-- Tokenizing a space-joined list of nonempty space-free tokens recovers the tokens. -/
theorem jieba_cut_intercalate (ts : List Text)
    (hne : ∀ t ∈ ts, t ≠ []) (hns : ∀ t ∈ ts, ∀ c ∈ t, c ≠ ' ') :
    jieba_cut (List.intercalate [' '] ts) = ts := by
  cases ts with
  | nil => rfl
  | cons a as =>
      rw [jieba_cut]
      have hsplit : List.splitOn ' ' (List.intercalate [' '] (a :: as)) = a :: as :=
        List.splitOn_intercalate (a :: as) ' '
          (fun l hl hsp => (hns l hl ' ' hsp) rfl) (List.cons_ne_nil a as)
      rw [hsplit]
      exact List.filter_eq_self.mpr (fun t ht => decide_eq_true (hne t ht))

/-- The character map of `preprocess_text` is idempotent: spaces stay spaces, kept
characters stay kept and already lower-cased. -/
theorem normChar_idem (c : Char) : normChar (normChar c) = normChar c := by
  by_cases hk : keepChar c = true
  · by_cases hA : 65 ≤ c.toNat ∧ c.toNat ≤ 90
    · have hc : Char.ofNat c.toNat = c := Char.ofNat_toNat c
      obtain ⟨h1, h2⟩ := hA
      interval_cases h : c.toNat <;> rw [← hc] <;> decide
    · have hl : c.toLower = c := by
        simp only [Char.toLower]
        rw [if_neg hA]
      simp [normChar, hk, hl]
  · have h1 : normChar c = ' ' := by rw [normChar, if_neg hk]
    rw [h1]
    decide

/-- The output of `preprocess_text` is fixed pointwise by `normChar`. -/
theorem preprocess_text_map_fixed (text : Text) :
    (preprocess_text text).map normChar = preprocess_text text := by
  have h : ∀ c ∈ preprocess_text text, normChar c = c := by
    intro c hc
    rw [preprocess_text] at hc
    rcases mem_intercalate_cases ' ' (jieba_cut (text.map normChar)) c hc with
      rfl | ⟨t, ht, hct⟩
    · decide
    · have hcm : c ∈ text.map normChar :=
        jieba_cut_pieces_subset (text.map normChar) t ht c hct
      obtain ⟨c0, -, rfl⟩ := List.mem_map.mp hcm
      exact normChar_idem c0
  exact (List.map_congr_left h).trans (List.map_id _)

/-- C6: the normalizer is idempotent: normalizing an already-normalized text returns it
unchanged. -/
theorem c6_preprocess_text_idempotent (text : Text) :
    preprocess_text (preprocess_text text) = preprocess_text text := by
  conv_lhs => rw [preprocess_text]
  rw [preprocess_text_map_fixed, preprocess_text,
    jieba_cut_intercalate (jieba_cut (text.map normChar))
      (jieba_cut_pieces_ne_nil (text.map normChar))
      (jieba_cut_pieces_no_space (text.map normChar))]

end Jqxx
